import Mathlib

/-!
Verification of the warelay auto-reply core (repository `clawdbot`).

This file is a shallow embedding, in Lean 4, of the parts of the repository
that the checked claims are about:

* `src/agents/pi.ts` — the `pi` agent: the streaming JSON output parser
  `parsePiJson` and the invocation matcher `piSpec.isInvocation`;
* the reply engine `runCommandReply` (module `command-reply`) — argv
  construction (templating, session flags, thinking cue), the handling of
  the enqueued run's outcome (success, non-zero exit, kill, timeout,
  generic failure), reply-item construction, and media-size filtering.

Modelling conventions:

* JavaScript strings are Lean `String`s.  The JS string operations used by
  the source (`trim`, `toLowerCase`, `startsWith`, `endsWith`, `slice`,
  `split`, `join`, `includes`) are re-implemented below on `List Char` so
  that every definition is executable and reduces in the kernel.  JS
  `slice(0, n)` counts UTF-16 units and the Lean model counts characters;
  none of the claims depends on the difference.
* `undefined`/`null`/absent JS values become `Option`; JS truthiness of a
  string is the test `≠ ""`, of an optional number the test `≠ 0` on the
  present value.
* JS numbers that the source only passes around are `Int` (exit codes,
  usage counters) or `Nat` (durations); `mediaMaxMb`, which is multiplied
  and compared, is `ℚ`.
* `JSON.parse` is not re-implemented: a parsed stream is a
  `List (Option PiEvent)`, one entry per kept line, where `none` stands
  for a line on which `JSON.parse` throws (a malformed line).
* Fallible code returns `Except`; the single `throw` in `runCommandReply`
  becomes the `Except.error` branch of the embedding.
* Effects that are outside the function under scrutiny (the command queue
  and child process, `fs.stat`, `path.resolve`, the media splitter from
  `media/parse`, the agent registry callbacks, wall-clock readings) are
  supplied as an explicit environment record `ReplyEnv`.
-/

/-! ## A small executable string toolkit (JS semantics, `List Char` based) -/

/-- JS `needle.isPrefixOf`-style Boolean infix test on lists:
`isInfixQ n h` is true iff `n` occurs contiguously inside `h`. -/
def isInfixQ (needle : List Char) : List Char → Bool
  | [] => needle.isEmpty
  | c :: t => needle.isPrefixOf (c :: t) || isInfixQ needle t

/-- JS `String.prototype.startsWith`. -/
def strStartsWith (s pre : String) : Bool :=
  pre.data.isPrefixOf s.data

/-- JS `String.prototype.endsWith`. -/
def strEndsWith (s suf : String) : Bool :=
  suf.data.reverse.isPrefixOf s.data.reverse

/-- JS `String.prototype.includes`. -/
def strIncludes (s sub : String) : Bool :=
  isInfixQ sub.data s.data

/-- JS `String.prototype.toLowerCase` (character-wise). -/
def strLower (s : String) : String :=
  String.mk (s.data.map Char.toLower)

/-- JS `String.prototype.trim` (whitespace from both ends). -/
def strTrim (s : String) : String :=
  String.mk (((s.data.dropWhile Char.isWhitespace).reverse.dropWhile
    Char.isWhitespace).reverse)

/-- JS `String.prototype.slice(0, n)`. -/
def strTake (s : String) (n : Nat) : String :=
  String.mk (s.data.take n)

/-- JS `Array.prototype.join(sep)` on an array of strings. -/
def joinSep (sep : String) : List String → String
  | [] => ""
  | [x] => x
  | x :: y :: xs => x ++ sep ++ joinSep sep (y :: xs)

/-- JS `String.prototype.split("\n")` (single-character separator).  The
source splits on the regex `\n+`; the two differ only in empty segments,
which every consumer below filters away. -/
def splitNlAux : List Char → List Char → List (List Char)
  | [], acc => [acc.reverse]
  | c :: rest, acc =>
    if c = '\n' then acc.reverse :: splitNlAux rest []
    else splitNlAux rest (c :: acc)

/-- Split a string on newline characters. -/
def splitNl (s : String) : List String :=
  (splitNlAux s.data []).map String.mk

/-- `containsStr hay needle` — `needle` occurs as a substring of `hay`
(the JS `includes` relation, as a proposition). -/
def containsStr (hay needle : String) : Prop :=
  isInfixQ needle.data hay.data = true

instance (hay needle : String) : Decidable (containsStr hay needle) := by
  unfold containsStr; infer_instance

/-! ### Lemmas about the toolkit -/

theorem strDataAppend (s t : String) : (s ++ t).data = s.data ++ t.data := by
  cases s; cases t; rfl

theorem strMkData (s : String) : String.mk s.data = s := rfl

theorem isInfixQ_iff (needle h : List Char) :
    isInfixQ needle h = true ↔ ∃ x y, h = x ++ needle ++ y := by
  induction h with
  | nil =>
    simp only [isInfixQ, List.isEmpty_iff]
    constructor
    · rintro rfl; exact ⟨[], [], rfl⟩
    · rintro ⟨x, y, hxy⟩
      have h2 := (List.append_eq_nil.mp hxy.symm).1
      exact (List.append_eq_nil.mp h2).2
  | cons c t ih =>
    simp only [isInfixQ, Bool.or_eq_true, ih, List.isPrefixOf_iff_prefix]
    constructor
    · rintro (⟨u, hu⟩ | ⟨x, y, rfl⟩)
      · exact ⟨[], u, by simpa using hu.symm⟩
      · exact ⟨c :: x, y, by simp⟩
    · rintro ⟨x, y, hxy⟩
      cases x with
      | nil => exact Or.inl ⟨y, by simpa using hxy.symm⟩
      | cons a x =>
        right
        refine ⟨x, y, ?_⟩
        have := hxy
        simp only [List.cons_append] at this
        exact (List.cons.injEq _ _ _ _ ▸ this).2

theorem containsStr_iff (hay needle : String) :
    containsStr hay needle ↔ ∃ x y, hay.data = x ++ needle.data ++ y := by
  unfold containsStr; exact isInfixQ_iff _ _

theorem containsStr_append_left {a needle : String} (b : String)
    (h : containsStr a needle) : containsStr (a ++ b) needle := by
  rw [containsStr_iff] at h ⊢
  obtain ⟨x, y, hxy⟩ := h
  exact ⟨x, y ++ b.data, by rw [strDataAppend, hxy]; simp⟩

theorem containsStr_append_right {b needle : String} (a : String)
    (h : containsStr b needle) : containsStr (a ++ b) needle := by
  rw [containsStr_iff] at h ⊢
  obtain ⟨x, y, hxy⟩ := h
  exact ⟨a.data ++ x, y, by rw [strDataAppend, hxy]; simp⟩

theorem containsStr_self (s : String) : containsStr s s := by
  rw [containsStr_iff]; exact ⟨[], [], by simp⟩

/-! ## The `pi` agent (`src/agents/pi.ts`) -/

/-- One entry of a message's `content` array (`{type?, text?}`). -/
structure PiContentItem where
  type : Option String
  text : Option String
deriving DecidableEq

/-- `usage` of a pi message (`{input?, output?}`). -/
structure PiUsage where
  input : Option Int
  output : Option Int
deriving DecidableEq

/-- A `PiAssistantMessage` as typed in `pi.ts` (all fields optional).
`content = some l` models a JSON array; a non-array `content` value and an
absent `content` both fail the source's `Array.isArray` test and are both
modelled as `none`. -/
structure PiMessage where
  role : Option String
  content : Option (List PiContentItem)
  usage : Option PiUsage
  model : Option String
  provider : Option String
  stopReason : Option String
deriving DecidableEq

/-- A parsed stream event (`{type?, message?}`). -/
structure PiEvent where
  type : Option String
  message : Option PiMessage
deriving DecidableEq

/-- Agent metadata (`AgentMeta`); `extraSummary` models `extra?.summary`. -/
structure AgentMeta where
  model : Option String
  provider : Option String
  stopReason : Option String
  usage : Option PiUsage
  extraSummary : Option String
deriving DecidableEq

/-- `AgentParseResult = {texts, toolResults?, meta?}`. -/
structure AgentParseResult where
  texts : List String
  toolResults : Option (List String)
  meta : Option AgentMeta
deriving DecidableEq

/-- The source's `isToolResult` test: a completed message whose role is a
non-empty string whose lower-casing contains `"tool"`. -/
def evIsToolResult (ev : PiEvent) : Bool :=
  (ev.type == some "message" || ev.type == some "message_end") &&
    (match ev.message with
      | some m =>
        match m.role with
        | some r => (r != "") && strIncludes (strLower r) "tool"
        | none => false
      | none => false)

/-- The source's `isAssistantMessage` test: a completed message with role
exactly `"assistant"` and an array `content`. -/
def evIsAssistant (ev : PiEvent) : Bool :=
  (ev.type == some "message" || ev.type == some "message_end") &&
    (match ev.message with
      | some m => m.role == some "assistant" && m.content.isSome
      | none => false)

/-- The source's `msgText`/`toolText` computation: keep the `content`
entries of type `"text"` whose `text` is a string, join with `"\n"`,
trim. -/
def msgJoinedText (m : PiMessage) : String :=
  strTrim (joinSep "\n" ((m.content.getD []).filterMap fun c =>
    if c.type == some "text" then c.text else none))

/-- The loop state of `parsePiJson`. -/
structure PiParseState where
  texts : List String
  toolResults : List String
  lastAssistant : Option PiMessage
  lastPushed : Option String
deriving DecidableEq

/-- One iteration of the `for (const line of lines)` loop of
`parsePiJson`.  `none` is a line on which `JSON.parse` threw (ignored by
the `catch`). -/
def piStep (st : PiParseState) (line : Option PiEvent) : PiParseState :=
  match line with
  | none => st
  | some ev =>
    if !(evIsAssistant ev || evIsToolResult ev) then st
    else
      match ev.message with
      | none => st
      | some msg =>
        let t := msgJoinedText msg
        if evIsAssistant ev then
          if t ≠ "" ∧ some t ≠ st.lastPushed then
            { texts := st.texts ++ [t]
              toolResults := st.toolResults
              lastAssistant := some msg
              lastPushed := some t }
          else st
        else if evIsToolResult ev ∧ msg.content.isSome then
          if t ≠ "" then { st with toolResults := st.toolResults ++ [t] }
          else st
        else st

/-- The initial loop state. -/
def piInitState : PiParseState :=
  { texts := [], toolResults := [], lastAssistant := none, lastPushed := none }

/-- Run the `parsePiJson` loop over a parsed stream. -/
def piRun (lines : List (Option PiEvent)) : PiParseState :=
  lines.foldl piStep piInitState

/-- `AgentMeta` built from the last pushed assistant message. -/
def metaOfMsg (m : PiMessage) : AgentMeta :=
  { model := m.model
    provider := m.provider
    stopReason := m.stopReason
    usage := m.usage
    extraSummary := none }

/-- `parsePiJson` over an already-split-and-JSON-parsed stream: the result
assembly at the end of the source function (`toolResults` only when
non-empty, `meta` only when there was a pushed assistant message and
`texts` is non-empty). -/
def parsePiJson (lines : List (Option PiEvent)) : AgentParseResult :=
  { texts := (piRun lines).texts
    toolResults :=
      if (piRun lines).toolResults ≠ [] then some (piRun lines).toolResults
      else none
    meta :=
      match (piRun lines).lastAssistant with
      | some la => if (piRun lines).texts ≠ [] then some (metaOfMsg la) else none
      | none => none }

/-- `node:path`'s POSIX `basename`: drop trailing slashes, then keep the
part after the last slash. -/
def nodeBasename (p : String) : String :=
  if p = "" then ""
  else
    let stripped := (p.data.reverse.dropWhile (fun c => c = '/')).reverse
    if stripped = [] then "/"
    else String.mk ((stripped.reverse.takeWhile (fun c => c ≠ '/')).reverse)

/-- The source's `.replace(/\.(m?js)$/i, "")`: remove one trailing `.js`
or `.mjs` extension, case-insensitively. -/
def stripJsExt (s : String) : String :=
  if strEndsWith (strLower s) ".mjs" then String.mk (s.data.take (s.data.length - 4))
  else if strEndsWith (strLower s) ".js" then String.mk (s.data.take (s.data.length - 3))
  else s

/-- `piSpec.isInvocation`: the basename of `argv[0]`, stripped of a
`.js`/`.mjs` extension, must be `pi` or `tau`. -/
def piIsInvocation (argv : List String) : Bool :=
  match argv with
  | [] => false
  | a :: _ =>
    let base := stripJsExt (nodeBasename a)
    base == "pi" || base == "tau"

/-- The line front-end of `parsePiJson`: split raw stdout on newlines and
keep the lines whose trimmed form starts with `\x7b` (the lines handed to
`JSON.parse`). -/
def piKeptLines (raw : String) : List String :=
  (splitNl raw).filter (fun l => strStartsWith (strTrim l) "\x7b")

/-- The whole `parsePiJson : string → AgentParseResult`, parameterised by
the JSON decoder (`JSON.parse` composed with the event typing), which the
embedding does not re-implement. -/
def piParseOutputVia (decode : String → Option PiEvent) (raw : String) :
    AgentParseResult :=
  parsePiJson ((piKeptLines raw).map decode)

/-! ## C8 — the pi invocation matcher -/

/-- C8 (counterexample): the claim "`isInvocation` returns true iff the
basename of `argv[0]` is `pi` or `tau`" fails at `argv = ["pi.js"]`: the
matcher strips a `.js`/`.mjs` extension before comparing, so it accepts
`"pi.js"` although the basename `"pi.js"` is neither `pi` nor `tau`. -/
theorem piIsInvocation_basename_claim_false :
    ¬ (piIsInvocation ["pi.js"] = true ↔
        (nodeBasename "pi.js" = "pi" ∨ nodeBasename "pi.js" = "tau")) := by
  decide

/-- C8 (amended): for every non-empty argv, the pi matcher returns true
iff the basename of `argv[0]`, after removing one trailing `.js` or
`.mjs` extension case-insensitively, is exactly `pi` or `tau`; on an
empty argv it returns false. -/
theorem piIsInvocation_basename_stripped :
    (∀ (a : String) (rest : List String),
      piIsInvocation (a :: rest) = true ↔
        (stripJsExt (nodeBasename a) = "pi" ∨ stripJsExt (nodeBasename a) = "tau"))
    ∧ piIsInvocation [] = false := by
  constructor
  · intro a rest
    simp [piIsInvocation]
  · rfl

/-! ## Structure lemmas for the `parsePiJson` loop -/

theorem evIsAssistant_message {ev : PiEvent} (h : evIsAssistant ev = true) :
    ∃ m, ev.message = some m ∧ m.role = some "assistant" ∧ m.content.isSome := by
  unfold evIsAssistant at h
  rcases hm : ev.message with _ | m
  · rw [hm] at h; simp at h
  · rw [hm] at h
    simp only [Bool.and_eq_true, beq_iff_eq] at h
    exact ⟨m, rfl, h.2.1, h.2.2⟩

theorem evIsAssistant_not_tool {ev : PiEvent} (h : evIsAssistant ev = true) :
    evIsToolResult ev = false := by
  obtain ⟨m, hm, hrole, _⟩ := evIsAssistant_message h
  have hni : strIncludes (strLower "assistant") "tool" = false := by decide
  simp [evIsToolResult, hm, hrole, hni]

theorem piStep_some_assistant (st : PiParseState) (ev : PiEvent) (m : PiMessage)
    (hA : evIsAssistant ev = true) (hm : ev.message = some m) :
    piStep st (some ev) =
      if msgJoinedText m ≠ "" ∧ some (msgJoinedText m) ≠ st.lastPushed then
        { texts := st.texts ++ [msgJoinedText m]
          toolResults := st.toolResults
          lastAssistant := some m
          lastPushed := some (msgJoinedText m) }
      else st := by
  simp [piStep, hA, hm]

theorem piStep_some_nonassistant (st : PiParseState) (ev : PiEvent)
    (hA : evIsAssistant ev = false) :
    (piStep st (some ev)).texts = st.texts ∧
    (piStep st (some ev)).lastPushed = st.lastPushed ∧
    (piStep st (some ev)).lastAssistant = st.lastAssistant := by
  simp only [piStep, hA, Bool.false_or]
  cases hT : evIsToolResult ev
  · simp
  · cases hm : ev.message with
    | none => simp
    | some m =>
      simp only [Bool.not_true, Bool.false_eq_true, if_false, hT]
      split_ifs <;> simp

/-- Case analysis for one loop iteration: either the text-tracking part of
the state is unchanged (and, if the line was a completed assistant
message, its text was empty or equal to `lastPushed`), or the line was a
completed assistant message whose non-duplicate non-empty text was pushed. -/
theorem piStep_cases (st : PiParseState) (l : Option PiEvent) :
    ((piStep st l).texts = st.texts ∧ (piStep st l).lastPushed = st.lastPushed ∧
      (piStep st l).lastAssistant = st.lastAssistant ∧
      (∀ ev msg, l = some ev → evIsAssistant ev = true → ev.message = some msg →
        msgJoinedText msg = "" ∨ some (msgJoinedText msg) = st.lastPushed))
    ∨ (∃ ev msg, l = some ev ∧ evIsAssistant ev = true ∧ ev.message = some msg ∧
        msgJoinedText msg ≠ "" ∧ some (msgJoinedText msg) ≠ st.lastPushed ∧
        piStep st l =
          { texts := st.texts ++ [msgJoinedText msg]
            toolResults := st.toolResults
            lastAssistant := some msg
            lastPushed := some (msgJoinedText msg) }) := by
  rcases l with _ | ev
  · left; exact ⟨rfl, rfl, rfl, by intro ev msg h; cases h⟩
  · by_cases hA : evIsAssistant ev = true
    · obtain ⟨m, hm, _, _⟩ := evIsAssistant_message hA
      have hstep := piStep_some_assistant st ev m hA hm
      by_cases hpush : msgJoinedText m ≠ "" ∧ some (msgJoinedText m) ≠ st.lastPushed
      · right
        refine ⟨ev, m, rfl, hA, hm, hpush.1, hpush.2, ?_⟩
        rw [hstep, if_pos hpush]
      · left
        rw [hstep, if_neg hpush]
        refine ⟨rfl, rfl, rfl, ?_⟩
        intro ev2 msg2 heq hA2 hm2
        cases heq
        rw [hm] at hm2
        cases hm2
        rcases not_and_or.mp hpush with h | h
        · exact Or.inl (not_not.mp h)
        · exact Or.inr (not_not.mp h)
    · left
      have hA2 : evIsAssistant ev = false := by
        cases h : evIsAssistant ev
        · rfl
        · exact absurd h hA
      obtain ⟨h1, h2, h3⟩ := piStep_some_nonassistant st ev hA2
      refine ⟨h1, h2, h3, ?_⟩
      intro ev2 msg2 heq hA3 hm2
      cases heq
      exact absurd hA3 hA

/-- Every text accumulated by the loop over `lines`, beyond those already
in the start state, comes from a completed assistant message in `lines`. -/
theorem piFold_texts_from_assistant (lines : List (Option PiEvent)) :
    ∀ (st : PiParseState) (t : String), t ∈ (lines.foldl piStep st).texts →
      t ∈ st.texts ∨ ∃ ev msg, some ev ∈ lines ∧ evIsAssistant ev = true ∧
        ev.message = some msg ∧ msgJoinedText msg = t := by
  induction lines with
  | nil => intro st t h; exact Or.inl h
  | cons l ls ih =>
    intro st t h
    rw [List.foldl_cons] at h
    rcases ih (piStep st l) t h with hmem | ⟨ev, msg, hin, hA, hm, ht⟩
    · rcases piStep_cases st l with ⟨hts, _, _, _⟩ | ⟨ev, msg, hl, hA, hm, _, _, hstep⟩
      · rw [hts] at hmem; exact Or.inl hmem
      · rw [hstep] at hmem
        simp only [List.mem_append, List.mem_singleton] at hmem
        rcases hmem with hmem | rfl
        · exact Or.inl hmem
        · exact Or.inr ⟨ev, msg, by rw [hl]; exact List.mem_cons_self _ _, hA, hm, rfl⟩
    · exact Or.inr ⟨ev, msg, List.mem_cons_of_mem _ hin, hA, hm, ht⟩

/-- The tool-result contribution of a single line: the text pushed onto
`toolResults` by the `else if (isToolResult && msg.content)` branch, when
that branch pushes. -/
def toolExtract (l : Option PiEvent) : Option String :=
  match l with
  | none => none
  | some ev =>
    if evIsAssistant ev then none
    else if evIsToolResult ev then
      match ev.message with
      | some msg =>
        if msg.content.isSome ∧ msgJoinedText msg ≠ "" then some (msgJoinedText msg)
        else none
      | none => none
    else none

theorem piStep_toolResults (st : PiParseState) (l : Option PiEvent) :
    (piStep st l).toolResults =
      match toolExtract l with
      | some t => st.toolResults ++ [t]
      | none => st.toolResults := by
  rcases l with _ | ev
  · rfl
  · by_cases hA : evIsAssistant ev = true
    · obtain ⟨m, hm, _, _⟩ := evIsAssistant_message hA
      have hstep := piStep_some_assistant st ev m hA hm
      simp only [toolExtract, hA, if_true]
      rw [hstep]
      split_ifs <;> rfl
    · have hA2 : evIsAssistant ev = false := by
        cases h : evIsAssistant ev
        · rfl
        · exact absurd h hA
      simp only [piStep, toolExtract, hA2, Bool.false_or, Bool.false_eq_true, if_false]
      cases hT : evIsToolResult ev
      · simp
      · cases hm : ev.message with
        | none => simp
        | some m =>
          simp only [Bool.not_true, Bool.false_eq_true, if_false, if_true]
          by_cases hc : m.content.isSome = true
          · by_cases ht : msgJoinedText m ≠ ""
            · simp [hc, ht]
            · simp [hc, ht]
          · simp [hc]

/-- The `toolResults` accumulated by the loop are exactly the non-empty
tool-result texts of the stream's tool-result lines, in order. -/
theorem piFold_toolResults (lines : List (Option PiEvent)) :
    ∀ st : PiParseState, (lines.foldl piStep st).toolResults =
      st.toolResults ++ lines.filterMap toolExtract := by
  induction lines with
  | nil => intro st; simp
  | cons l ls ih =>
    intro st
    rw [List.foldl_cons, ih (piStep st l), piStep_toolResults st l,
      List.filterMap_cons]
    cases toolExtract l <;> simp

/-- Processing the same assistant text twice in a row is the same as
processing it once (the dedup guard `msgText !== lastPushed`). -/
theorem piStep_dedup (st : PiParseState) (ev1 ev2 : PiEvent) (m1 m2 : PiMessage)
    (hA1 : evIsAssistant ev1 = true) (hA2 : evIsAssistant ev2 = true)
    (hm1 : ev1.message = some m1) (hm2 : ev2.message = some m2)
    (htx : msgJoinedText m1 = msgJoinedText m2) :
    piStep (piStep st (some ev1)) (some ev2) = piStep st (some ev1) := by
  have hstep1 := piStep_some_assistant st ev1 m1 hA1 hm1
  by_cases hpush : msgJoinedText m1 ≠ "" ∧ some (msgJoinedText m1) ≠ st.lastPushed
  · rw [hstep1, if_pos hpush]
    rw [piStep_some_assistant _ ev2 m2 hA2 hm2]
    rw [if_neg]
    simp [← htx]
  · rw [hstep1, if_neg hpush]
    rw [piStep_some_assistant _ ev2 m2 hA2 hm2]
    rw [if_neg]
    rw [← htx]
    exact hpush

/-- The loop invariant that ties `lastPushed`, `lastAssistant` and
`texts` together: `lastPushed` is the last pushed text, `lastAssistant`
is present iff some text was pushed, and in that case the stream
decomposes around the last pushing assistant line. -/
theorem piRun_invariant (lines : List (Option PiEvent)) :
    (piRun lines).lastPushed = (piRun lines).texts.getLast? ∧
    ((piRun lines).lastAssistant.isSome ↔ (piRun lines).texts ≠ []) ∧
    ((piRun lines).texts ≠ [] → ∃ p ev msg s,
      lines = p ++ some ev :: s ∧ evIsAssistant ev = true ∧
      ev.message = some msg ∧ (piRun lines).lastAssistant = some msg ∧
      some (msgJoinedText msg) = (piRun lines).texts.getLast? ∧
      ∀ ev2 msg2, some ev2 ∈ s → evIsAssistant ev2 = true →
        ev2.message = some msg2 →
        msgJoinedText msg2 = "" ∨
          some (msgJoinedText msg2) = (piRun lines).texts.getLast?) := by
  induction lines using List.reverseRecOn with
  | nil =>
    refine ⟨rfl, ⟨?_, ?_⟩, ?_⟩
    · intro h
      simp [piRun, piInitState] at h
    · intro h
      exact absurd rfl h
    · intro h
      exact absurd rfl h
  | append_singleton xs x ih =>
    have hrun : piRun (xs ++ [x]) = piStep (piRun xs) x := by
      unfold piRun
      rw [List.foldl_append, List.foldl_cons, List.foldl_nil]
    obtain ⟨ihP, ihA, ihD⟩ := ih
    rcases piStep_cases (piRun xs) x with
      ⟨hts, hlp, hla, hside⟩ | ⟨ev, msg, hl, hA, hm, hne, hdup, hstep⟩
    · rw [hrun] at *
      refine ⟨by rw [hlp, hts, ihP], by rw [hla, hts]; exact ihA, ?_⟩
      intro hne
      rw [hts] at hne
      obtain ⟨p, ev, msg, s, hdec, hAev, hmev, hlast, htx, hrest⟩ := ihD hne
      refine ⟨p, ev, msg, s ++ [x], ?_, hAev, hmev, by rw [hla, hlast], ?_, ?_⟩
      · rw [hdec]; simp
      · rw [hts, htx]
      · intro ev2 msg2 hin hA2 hm2
        rw [List.mem_append, List.mem_singleton] at hin
        rcases hin with hin | rfl
        · rw [hts]; exact hrest ev2 msg2 hin hA2 hm2
        · rcases hside ev2 msg2 rfl hA2 hm2 with h | h
          · exact Or.inl h
          · right; rw [hts, ← ihP]; exact h
    · rw [hrun, hstep]
      refine ⟨?_, ?_, ?_⟩
      · simp [List.getLast?_concat]
      · simp
      · intro _
        refine ⟨xs, ev, msg, [], by rw [hl], hA, hm, rfl, ?_, ?_⟩
        · simp [List.getLast?_concat]
        · intro ev2 msg2 hin
          simp at hin

theorem evIsToolResult_not_assistant {ev : PiEvent} (h : evIsToolResult ev = true) :
    evIsAssistant ev = false := by
  cases hA : evIsAssistant ev
  · rfl
  · rw [evIsAssistant_not_tool hA] at h
    cases h

/-- C4: for every parsed newline-delimited stream handed to the pi
parser: (1) every element of `texts` is the joined text of some completed
assistant message of the stream (`type` `message`/`message_end`, role
`assistant`, array content); (2) every completed message whose role
contains `tool` and that carries non-empty content text contributes that
text to `toolResults`; (3) two consecutive assistant messages carrying
identical texts yield the same result as one of them (the duplicate is
collapsed); (4) a line that is not valid JSON (a `none` entry) is ignored
without affecting the result. -/
theorem parsePiJson_stream_properties :
    (∀ lines t, t ∈ (parsePiJson lines).texts →
      ∃ ev msg, some ev ∈ lines ∧ evIsAssistant ev = true ∧
        ev.message = some msg ∧ msgJoinedText msg = t)
    ∧ (∀ lines ev msg, some ev ∈ lines → evIsToolResult ev = true →
        ev.message = some msg → msg.content.isSome → msgJoinedText msg ≠ "" →
        ∃ tl, (parsePiJson lines).toolResults = some tl ∧ msgJoinedText msg ∈ tl)
    ∧ (∀ p s ev1 ev2 m1 m2, evIsAssistant ev1 = true → evIsAssistant ev2 = true →
        ev1.message = some m1 → ev2.message = some m2 →
        msgJoinedText m1 = msgJoinedText m2 →
        parsePiJson (p ++ some ev1 :: some ev2 :: s) =
          parsePiJson (p ++ some ev1 :: s))
    ∧ (∀ p s, parsePiJson (p ++ none :: s) = parsePiJson (p ++ s)) := by
  refine ⟨?_, ?_, ?_, ?_⟩
  · intro lines t ht
    have := piFold_texts_from_assistant lines piInitState t ht
    rcases this with h | ⟨ev, msg, hin, hA, hm, htx⟩
    · simp [piInitState] at h
    · exact ⟨ev, msg, hin, hA, hm, htx⟩
  · intro lines ev msg hin hT hm hc hne
    have hA := evIsToolResult_not_assistant hT
    have hex : toolExtract (some ev) = some (msgJoinedText msg) := by
      simp [toolExtract, hA, hT, hm, hc, hne]
    have hmem : msgJoinedText msg ∈ lines.filterMap toolExtract :=
      List.mem_filterMap.mpr ⟨some ev, hin, hex⟩
    have heq := piFold_toolResults lines piInitState
    have hmem2 : msgJoinedText msg ∈ (piRun lines).toolResults := by
      unfold piRun
      rw [heq]
      simp [piInitState, hmem]
    have hnonempty : (piRun lines).toolResults ≠ [] :=
      List.ne_nil_of_mem hmem2
    refine ⟨(piRun lines).toolResults, ?_, hmem2⟩
    simp [parsePiJson, hnonempty]
  · intro p s ev1 ev2 m1 m2 hA1 hA2 hm1 hm2 htx
    unfold parsePiJson piRun
    rw [List.foldl_append, List.foldl_append, List.foldl_cons, List.foldl_cons,
      List.foldl_cons, piStep_dedup _ ev1 ev2 m1 m2 hA1 hA2 hm1 hm2 htx]
  · intro p s
    unfold parsePiJson piRun
    rw [List.foldl_append, List.foldl_append, List.foldl_cons]
    rfl

/-- The message of the concrete assistant event below. -/
def piSampleAssistantMsg : PiMessage :=
  { role := some "assistant"
    content := some [{ type := some "text", text := some "hi" }]
    usage := some { input := some 3, output := some 5 }
    model := some "m1"
    provider := some "prov"
    stopReason := some "stop" }

/-- A concrete completed assistant message whose text is `hi`. -/
def piSampleAssistant : PiEvent :=
  { type := some "message"
    message := some piSampleAssistantMsg }

/-- The message of the concrete tool-result event below. -/
def piSampleToolMsg : PiMessage :=
  { role := some "toolResult"
    content := some [{ type := some "text", text := some "out" }]
    usage := none
    model := none
    provider := none
    stopReason := none }

/-- A concrete completed tool-result message whose text is `out`. -/
def piSampleTool : PiEvent :=
  { type := some "message_end"
    message := some piSampleToolMsg }

/-- C4 (witness): the four parts of `parsePiJson_stream_properties`
applied at concrete streams. -/
theorem parsePiJson_stream_properties_witness :
    (∃ ev msg, some ev ∈ [some piSampleAssistant] ∧ evIsAssistant ev = true ∧
      ev.message = some msg ∧ msgJoinedText msg = "hi")
    ∧ (∃ tl, (parsePiJson [some piSampleTool]).toolResults = some tl ∧
        msgJoinedText piSampleToolMsg ∈ tl)
    ∧ parsePiJson ([] ++ some piSampleAssistant :: some piSampleAssistant :: []) =
        parsePiJson ([] ++ some piSampleAssistant :: [])
    ∧ parsePiJson ([] ++ none :: [some piSampleAssistant]) =
        parsePiJson ([] ++ [some piSampleAssistant]) := by
  refine ⟨?_, ?_, ?_, ?_⟩
  · exact parsePiJson_stream_properties.1 [some piSampleAssistant] "hi" (by decide)
  · exact parsePiJson_stream_properties.2.1 [some piSampleTool] piSampleTool _
      (by decide) (by decide) rfl (by decide) (by decide)
  · exact parsePiJson_stream_properties.2.2.1 [] [] piSampleAssistant piSampleAssistant
      _ _ (by decide) (by decide) rfl rfl rfl
  · exact parsePiJson_stream_properties.2.2.2 [] [some piSampleAssistant]

/-- C9: the pi parser's `meta` is present iff `texts` is non-empty, and
when present its fields (`model`, `provider`, `stopReason`, `usage`) are
those of the last assistant message whose text was appended to `texts`:
the stream decomposes around that assistant line, its text is the last
element of `texts`, and no later assistant line pushed a text (each later
one carries an empty or duplicate text). -/
theorem parsePiJson_meta_last_assistant :
    ∀ lines : List (Option PiEvent),
      ((parsePiJson lines).meta.isSome ↔ (parsePiJson lines).texts ≠ []) ∧
      (∀ mt, (parsePiJson lines).meta = some mt →
        ∃ p ev msg s, lines = p ++ some ev :: s ∧ evIsAssistant ev = true ∧
          ev.message = some msg ∧ mt = metaOfMsg msg ∧
          some (msgJoinedText msg) = (parsePiJson lines).texts.getLast? ∧
          ∀ ev2 msg2, some ev2 ∈ s → evIsAssistant ev2 = true →
            ev2.message = some msg2 →
            msgJoinedText msg2 = "" ∨
              some (msgJoinedText msg2) = (parsePiJson lines).texts.getLast?) := by
  intro lines
  obtain ⟨invP, invA, invD⟩ := piRun_invariant lines
  have htexts : (parsePiJson lines).texts = (piRun lines).texts := rfl
  constructor
  · rw [htexts]
    cases hla : (piRun lines).lastAssistant with
    | none =>
      have hempty : (piRun lines).texts = [] := by
        by_contra hne
        have h2 := invA.mpr hne
        rw [hla] at h2
        cases h2
      constructor
      · intro h
        simp [parsePiJson, hla] at h
      · intro h
        exact absurd hempty h
    | some la =>
      by_cases hne : (piRun lines).texts ≠ []
      · constructor
        · intro _
          exact hne
        · intro _
          simp [parsePiJson, hla, hne]
      · constructor
        · intro h
          simp [parsePiJson, hla, hne] at h
        · intro h
          exact absurd h hne
  · intro mt hmt
    have hex : ∃ la, (piRun lines).lastAssistant = some la ∧
        (piRun lines).texts ≠ [] ∧ mt = metaOfMsg la := by
      unfold parsePiJson at hmt
      simp only at hmt
      split at hmt
      · rename_i la hla2
        split at hmt
        · rename_i hne
          exact ⟨la, hla2, hne, ((Option.some.injEq _ _).mp hmt).symm⟩
        · cases hmt
      · cases hmt
    obtain ⟨la, hla, hne, hmtval⟩ := hex
    obtain ⟨p, ev, msg, s, hdec, hA, hm, hlast, htx, hrest⟩ := invD hne
    rw [hla] at hlast
    have hmsg : la = msg := by injection hlast
    subst hmsg
    exact ⟨p, ev, la, s, hdec, hA, hm, hmtval, htx, hrest⟩

/-- C9 (witness): `parsePiJson_meta_last_assistant` at the concrete
one-assistant-message stream. -/
theorem parsePiJson_meta_last_assistant_witness :
    (parsePiJson [some piSampleAssistant]).meta =
      some (metaOfMsg piSampleAssistantMsg) ∧
    ∃ p ev msg s, [some piSampleAssistant] = p ++ some ev :: s ∧
      evIsAssistant ev = true ∧ ev.message = some msg ∧
      metaOfMsg piSampleAssistantMsg = metaOfMsg msg ∧
      some (msgJoinedText msg) =
        (parsePiJson [some piSampleAssistant]).texts.getLast? := by
  constructor
  · decide
  · obtain ⟨p, ev, msg, s, hdec, hA, hm, hmt, htx, _⟩ :=
      (parsePiJson_meta_last_assistant [some piSampleAssistant]).2
        (metaOfMsg piSampleAssistantMsg) (by decide)
    exact ⟨p, ev, msg, s, hdec, hA, hm, hmt, htx⟩

/-! ## The template engine (§4.A)

The template engine lives in `reply/templating.ts`, which is not among
the provided sources; only its caller is.  It is therefore modelled from
the spec. -/

/-- Fuel-bounded leftmost replace-all on character lists; with
`fuel ≥ s.length` and a non-empty pattern the fuel never runs out. -/
def replaceAllFuel (pat rep : List Char) : Nat → List Char → List Char
  | 0, s => s
  | _ + 1, [] => []
  | fuel + 1, c :: t =>
    if !pat.isEmpty && pat.isPrefixOf (c :: t) then
      rep ++ replaceAllFuel pat rep fuel ((c :: t).drop pat.length)
    else c :: replaceAllFuel pat rep fuel t

/-- Replace every (non-overlapping, leftmost) occurrence of `pat` in `s`
by `rep`. -/
def replaceAll (pat rep s : List Char) : List Char :=
  replaceAllFuel pat rep s.length s

/-- Modelled from the spec: the template context of §4.A, one string per
recognised token. -/
structure TemplateContext where
  Body : String
  BodyStripped : String
  From : String
  To : String
  MessageSid : String
  IsNewSession : String
  MediaPath : String
  SessionId : String
deriving DecidableEq

/-- Modelled from the spec: the recognised tokens of §4.A with their
replacement values.  The spec fixes the token set, not a substitution
order; the model substitutes in the listed order, `SessionId` last. -/
def templatePairs (ctx : TemplateContext) : List (String × String) :=
  [("\x7b\x7bBody\x7d\x7d", ctx.Body),
   ("\x7b\x7bBodyStripped\x7d\x7d", ctx.BodyStripped),
   ("\x7b\x7bFrom\x7d\x7d", ctx.From),
   ("\x7b\x7bTo\x7d\x7d", ctx.To),
   ("\x7b\x7bMessageSid\x7d\x7d", ctx.MessageSid),
   ("\x7b\x7bIsNewSession\x7d\x7d", ctx.IsNewSession),
   ("\x7b\x7bMediaPath\x7d\x7d", ctx.MediaPath),
   ("\x7b\x7bSessionId\x7d\x7d", ctx.SessionId)]

/-- Modelled from the spec: `apply(template, ctx)` — substitute every
recognised token, leave everything else verbatim. -/
def applyTemplate (t : String) (ctx : TemplateContext) : String :=
  (templatePairs ctx).foldl
    (fun s pr => String.mk (replaceAll pr.1.data pr.2.data s.data)) t

theorem replaceAllFuel_nil (pat rep : List Char) (fuel : Nat) :
    replaceAllFuel pat rep fuel [] = [] := by
  cases fuel <;> rfl

theorem replaceAllFuel_not_found (pat rep : List Char) :
    ∀ (fuel : Nat) (s : List Char), isInfixQ pat s = false →
      replaceAllFuel pat rep fuel s = s := by
  intro fuel
  induction fuel with
  | zero => intro s _; rfl
  | succ n ih =>
    intro s h
    cases s with
    | nil => rfl
    | cons c t =>
      have hpre : pat.isPrefixOf (c :: t) = false := by
        cases hp : pat.isPrefixOf (c :: t)
        · rfl
        · exfalso
          unfold isInfixQ at h
          rw [hp] at h
          simp at h
      have hrest : isInfixQ pat t = false := by
        unfold isInfixQ at h
        rw [hpre] at h
        simpa using h
      simp [replaceAllFuel, hpre, ih t hrest]

/-- If the pattern does not occur, `replaceAll` is the identity. -/
theorem replaceAll_not_found (pat rep : List Char) (s : List Char)
    (h : isInfixQ pat s = false) : replaceAll pat rep s = s :=
  replaceAllFuel_not_found pat rep s.length s h

/-- Replacing a non-empty pattern inside itself yields the replacement. -/
theorem replaceAll_self (pat rep : List Char) (hne : pat ≠ []) :
    replaceAll pat rep pat = rep := by
  cases pat with
  | nil => exact absurd rfl hne
  | cons c t =>
    have hpre : (c :: t).isPrefixOf (c :: t) = true :=
      List.isPrefixOf_iff_prefix.mpr List.prefix_rfl
    have hdrop : List.drop (t.length + 1) (c :: t) = [] := by
      simp
    simp [replaceAll, replaceAllFuel, hpre, hdrop, replaceAllFuel_nil]

/-- Strings containing no recognised token are left verbatim by the
template engine. -/
theorem applyTemplate_fixed (t : String) (ctx : TemplateContext)
    (h1 : isInfixQ "\x7b\x7bBody\x7d\x7d".data t.data = false)
    (h2 : isInfixQ "\x7b\x7bBodyStripped\x7d\x7d".data t.data = false)
    (h3 : isInfixQ "\x7b\x7bFrom\x7d\x7d".data t.data = false)
    (h4 : isInfixQ "\x7b\x7bTo\x7d\x7d".data t.data = false)
    (h5 : isInfixQ "\x7b\x7bMessageSid\x7d\x7d".data t.data = false)
    (h6 : isInfixQ "\x7b\x7bIsNewSession\x7d\x7d".data t.data = false)
    (h7 : isInfixQ "\x7b\x7bMediaPath\x7d\x7d".data t.data = false)
    (h8 : isInfixQ "\x7b\x7bSessionId\x7d\x7d".data t.data = false) :
    applyTemplate t ctx = t := by
  simp only [applyTemplate, templatePairs, List.foldl_cons, List.foldl_nil]
  rw [replaceAll_not_found _ _ _ h1, strMkData,
    replaceAll_not_found _ _ _ h2, strMkData,
    replaceAll_not_found _ _ _ h3, strMkData,
    replaceAll_not_found _ _ _ h4, strMkData,
    replaceAll_not_found _ _ _ h5, strMkData,
    replaceAll_not_found _ _ _ h6, strMkData,
    replaceAll_not_found _ _ _ h7, strMkData,
    replaceAll_not_found _ _ _ h8, strMkData]

/-- The bare `SessionId` token always renders to the context's session
id. -/
theorem applyTemplate_sessionId (ctx : TemplateContext) :
    applyTemplate "\x7b\x7bSessionId\x7d\x7d" ctx = ctx.SessionId := by
  have e1 : isInfixQ "\x7b\x7bBody\x7d\x7d".data "\x7b\x7bSessionId\x7d\x7d".data = false := by
    decide
  have e2 : isInfixQ "\x7b\x7bBodyStripped\x7d\x7d".data "\x7b\x7bSessionId\x7d\x7d".data = false := by
    decide
  have e3 : isInfixQ "\x7b\x7bFrom\x7d\x7d".data "\x7b\x7bSessionId\x7d\x7d".data = false := by
    decide
  have e4 : isInfixQ "\x7b\x7bTo\x7d\x7d".data "\x7b\x7bSessionId\x7d\x7d".data = false := by
    decide
  have e5 : isInfixQ "\x7b\x7bMessageSid\x7d\x7d".data "\x7b\x7bSessionId\x7d\x7d".data = false := by
    decide
  have e6 : isInfixQ "\x7b\x7bIsNewSession\x7d\x7d".data "\x7b\x7bSessionId\x7d\x7d".data = false := by
    decide
  have e7 : isInfixQ "\x7b\x7bMediaPath\x7d\x7d".data "\x7b\x7bSessionId\x7d\x7d".data = false := by
    decide
  have hne : ("\x7b\x7bSessionId\x7d\x7d".data : List Char) ≠ [] := by decide
  simp only [applyTemplate, templatePairs, List.foldl_cons, List.foldl_nil]
  rw [replaceAll_not_found _ _ _ e1, replaceAll_not_found _ _ _ e2,
    replaceAll_not_found _ _ _ e3, replaceAll_not_found _ _ _ e4,
    replaceAll_not_found _ _ _ e5, replaceAll_not_found _ _ _ e6,
    replaceAll_not_found _ _ _ e7, replaceAll_self _ _ hne, strMkData]

/-! ## The reply engine's argv construction (`runCommandReply`, part 1) -/

/-- The agent kinds of the registry. -/
inductive AgentKind where
  | claude
  | opencode
  | pi
  | codex
  | gemini
deriving DecidableEq

/-- Think levels (`"off" | "minimal" | "low" | "medium" | "high"`). -/
inductive ThinkLevel where
  | off
  | minimal
  | low
  | medium
  | high
deriving DecidableEq

/-- Verbose levels (`"off" | "on"`). -/
inductive VerboseLevel where
  | off
  | on
deriving DecidableEq

/-- The string value of a think level, as passed on the command line. -/
def thinkLevelStr : ThinkLevel → String
  | ThinkLevel.off => "off"
  | ThinkLevel.minimal => "minimal"
  | ThinkLevel.low => "low"
  | ThinkLevel.medium => "medium"
  | ThinkLevel.high => "high"

/-- The fields of `reply.session` that `runCommandReply` reads. -/
structure SessionCfg where
  sessionArgNew : Option (List String)
  sessionArgResume : Option (List String)
  sessionArgBeforeBody : Option Bool
deriving DecidableEq

/-- The session-flag injection block of `runCommandReply` (executed when
`reply.session` is set): pick the per-kind default flag template unless
overridden, render it through the template engine, and splice it in
before the body (`sessionArgBeforeBody ?? true` and more than one arg)
or at the end; `bodyIndex` is then recomputed as `argv.length - 1`. -/
def injectSessionArgs (s : SessionCfg) (kind : AgentKind) (isNewSession : Bool)
    (ctx : TemplateContext) (argv : List String) (bodyIndex : Nat) :
    List String × Nat :=
  let defaults : List String × List String :=
    match kind with
    | AgentKind.claude =>
      (["--session-id", "\x7b\x7bSessionId\x7d\x7d"],
       ["--resume", "\x7b\x7bSessionId\x7d\x7d"])
    | AgentKind.gemini =>
      ([], ["--resume", "\x7b\x7bSessionId\x7d\x7d"])
    | _ =>
      (["--session", "\x7b\x7bSessionId\x7d\x7d"],
       ["--session", "\x7b\x7bSessionId\x7d\x7d"])
  let raw :=
    if isNewSession then s.sessionArgNew.getD defaults.1
    else s.sessionArgResume.getD defaults.2
  let sessionArgList := raw.map (fun p => applyTemplate p ctx)
  if sessionArgList ≠ [] then
    let insertBeforeBody := s.sessionArgBeforeBody.getD true
    let insertAt :=
      if insertBeforeBody ∧ 1 < argv.length then argv.length - 1
      else argv.length
    let argv2 := argv.take insertAt ++ sessionArgList ++ argv.drop insertAt
    (argv2, argv2.length - 1)
  else (argv, bodyIndex)

/-- Spec-side description (C6's table) of the default session flags per
agent kind, already rendered with the session id. -/
def specSessionFlags (kind : AgentKind) (isNewSession : Bool) (sid : String) :
    List String :=
  match kind, isNewSession with
  | AgentKind.claude, true => ["--session-id", sid]
  | AgentKind.claude, false => ["--resume", sid]
  | AgentKind.gemini, true => []
  | AgentKind.gemini, false => ["--resume", sid]
  | _, _ => ["--session", sid]

/-- C6: with `reply.session` configured and no `sessionArgNew` /
`sessionArgResume` overrides, the injected flags are exactly those of the
kind table (claude: `--session-id <id>` new / `--resume <id>` resume;
gemini: none new / `--resume <id>` resume; all others: `--session <id>`),
and they are spliced immediately before the final (body) argument when
`sessionArgBeforeBody` is true or unset and argv has more than one
element, else appended at the end. -/
theorem injectSessionArgs_default_table (s : SessionCfg) (kind : AgentKind)
    (isNewSession : Bool) (ctx : TemplateContext) (argv : List String)
    (bodyIndex : Nat)
    (hNew : s.sessionArgNew = none) (hRes : s.sessionArgResume = none) :
    (injectSessionArgs s kind isNewSession ctx argv bodyIndex).1 =
      argv.take
          (if s.sessionArgBeforeBody.getD true ∧ 1 < argv.length then
            argv.length - 1
          else argv.length)
        ++ specSessionFlags kind isNewSession ctx.SessionId
        ++ argv.drop
          (if s.sessionArgBeforeBody.getD true ∧ 1 < argv.length then
            argv.length - 1
          else argv.length) := by
  have hfix : ∀ t : String,
      t = "--session-id" ∨ t = "--resume" ∨ t = "--session" →
      applyTemplate t ctx = t := by
    intro t ht
    rcases ht with rfl | rfl | rfl <;>
      exact applyTemplate_fixed _ ctx (by decide) (by decide) (by decide)
        (by decide) (by decide) (by decide) (by decide) (by decide)
  have hsid := applyTemplate_sessionId ctx
  have f1 : applyTemplate "--session-id" ctx = "--session-id" := hfix _ (Or.inl rfl)
  have f2 : applyTemplate "--resume" ctx = "--resume" := hfix _ (Or.inr (Or.inl rfl))
  have f3 : applyTemplate "--session" ctx = "--session" := hfix _ (Or.inr (Or.inr rfl))
  cases kind <;> cases isNewSession <;>
    simp [injectSessionArgs, specSessionFlags, hNew, hRes, f1, f2, f3, hsid,
      List.take_append_drop]

/-- A session config without flag overrides. -/
def sessionCfgNoOverride : SessionCfg :=
  { sessionArgNew := none, sessionArgResume := none, sessionArgBeforeBody := none }

/-- A concrete template context. -/
def sampleCtx : TemplateContext :=
  { Body := "hello", BodyStripped := "hello", From := "+1", To := "+2"
    MessageSid := "SM1", IsNewSession := "true", MediaPath := ""
    SessionId := "S123" }

/-- C6 (witness): `injectSessionArgs_default_table` for claude on a new
session: the flags land immediately before the body. -/
theorem injectSessionArgs_default_table_witness :
    (injectSessionArgs sessionCfgNoOverride AgentKind.claude true sampleCtx
        ["claude", "BODY"] 1).1 = ["claude", "--session-id", "S123", "BODY"] := by
  have h := injectSessionArgs_default_table sessionCfgNoOverride AgentKind.claude
    true sampleCtx ["claude", "BODY"] 1 rfl rfl
  rw [h]
  rfl

/-! ## The thinking cue (`appendThinkingCue` and its caller) -/

/-- `appendThinkingCue(body, level)`: trim the body, pick the cue word by
level, join the non-empty parts with a space.  The source's `switch` has
a `default` arm returning `""` that no level reaches; the arms are spelt
out here so that each equation is unconditional. -/
def appendThinkingCue (body : String) (level : Option ThinkLevel) : String :=
  match level with
  | none => body
  | some ThinkLevel.off => body
  | some ThinkLevel.minimal =>
    joinSep " " (([strTrim body, "think"]).filter (fun x => x ≠ ""))
  | some ThinkLevel.low =>
    joinSep " " (([strTrim body, "think hard"]).filter (fun x => x ≠ ""))
  | some ThinkLevel.medium =>
    joinSep " " (([strTrim body, "think harder"]).filter (fun x => x ≠ ""))
  | some ThinkLevel.high =>
    joinSep " " (([strTrim body, "ultrathink"]).filter (fun x => x ≠ ""))

/-- The source's scan for an existing `--thinking` flag: some element is
`--thinking`, follows a `--thinking`, or starts with `--thinking=`. -/
def hasThinkingFlag (argv : List String) : Bool :=
  argv.enum.any (fun pr =>
    pr.2 == "--thinking" ||
    (decide (0 < pr.1) && (argv[pr.1 - 1]? == some "--thinking")) ||
    strStartsWith pr.2 "--thinking=")

/-- The think-level block of `runCommandReply`: for a set level other
than `off`, pi gets a `--thinking <level>` flag pair spliced in before
the body (unless one is already present, `bodyIndex` advancing by two);
any other kind gets the cue appended to a truthy body argument. -/
def applyThinkLevel (level : Option ThinkLevel) (kind : AgentKind)
    (argv : List String) (bodyIndex : Nat) : List String × Nat :=
  match level with
  | none => (argv, bodyIndex)
  | some lvl =>
    if lvl = ThinkLevel.off then (argv, bodyIndex)
    else if kind = AgentKind.pi then
      if hasThinkingFlag argv then (argv, bodyIndex)
      else
        (argv.take bodyIndex ++ ["--thinking", thinkLevelStr lvl]
          ++ argv.drop bodyIndex, bodyIndex + 2)
    else
      match argv[bodyIndex]? with
      | some b =>
        if b ≠ "" then
          (argv.set bodyIndex (appendThinkingCue b (some lvl)), bodyIndex)
        else (argv, bodyIndex)
      | none => (argv, bodyIndex)

/-- Spec-side description (C7's mapping) of the cue word per level. -/
def specThinkCue : ThinkLevel → String
  | ThinkLevel.minimal => "think"
  | ThinkLevel.low => "think hard"
  | ThinkLevel.medium => "think harder"
  | ThinkLevel.high => "ultrathink"
  | ThinkLevel.off => ""

/-- C7 (counterexample): the claim says the body argument is replaced by
"the trimmed body followed by a single space and the cue word"; with an
empty body argument the code leaves argv unchanged instead (guard
`argv[bodyIndex]`), so at `argv = ["claude", ""]`, level `high`, the
result is not `["claude", "" ++ " " ++ "ultrathink"]`. -/
theorem applyThinkLevel_claim_false_on_empty_body :
    (applyThinkLevel (some ThinkLevel.high) AgentKind.claude ["claude", ""] 1).1 =
      ["claude", ""] ∧
    (applyThinkLevel (some ThinkLevel.high) AgentKind.claude ["claude", ""] 1).1 ≠
      ["claude", strTrim "" ++ " " ++ "ultrathink"] := by
  constructor
  · rfl
  · decide

theorem appendThinkingCue_eq (b : String) (lvl : ThinkLevel)
    (h : lvl ≠ ThinkLevel.off) :
    appendThinkingCue b (some lvl) =
      if strTrim b = "" then specThinkCue lvl
      else strTrim b ++ " " ++ specThinkCue lvl := by
  cases lvl
  · exact absurd rfl h
  all_goals
    by_cases hb : strTrim b = "" <;>
      simp [appendThinkingCue, specThinkCue, joinSep, hb]

/-- C7 (amended): for an effective think level other than `off`: pi gets
the `--thinking <level>` flag pair spliced in before the body (with the
body index advancing by two) unless a `--thinking` flag is already
present; for any other kind, a non-empty body argument is replaced by the
trimmed body and the cue word (`minimal→think`, `low→think hard`,
`medium→think harder`, `high→ultrathink`) joined by a single space — just
the cue when the trimmed body is empty — while an empty body argument is
left unchanged; level `off` or no level leaves argv and body index
unchanged. -/
theorem applyThinkLevel_behaviour :
    (∀ lvl : ThinkLevel, lvl ≠ ThinkLevel.off →
      (∀ (argv : List String) (bodyIndex : Nat), hasThinkingFlag argv = false →
        applyThinkLevel (some lvl) AgentKind.pi argv bodyIndex =
          (argv.take bodyIndex ++ ["--thinking", thinkLevelStr lvl]
            ++ argv.drop bodyIndex, bodyIndex + 2)) ∧
      (∀ kind, kind ≠ AgentKind.pi → ∀ (argv : List String) (bodyIndex : Nat)
          (b : String), argv[bodyIndex]? = some b → b ≠ "" →
        (applyThinkLevel (some lvl) kind argv bodyIndex).1 =
          argv.set bodyIndex
            (if strTrim b = "" then specThinkCue lvl
             else strTrim b ++ " " ++ specThinkCue lvl)) ∧
      (∀ kind, kind ≠ AgentKind.pi → ∀ (argv : List String) (bodyIndex : Nat),
        argv[bodyIndex]? = some "" →
        applyThinkLevel (some lvl) kind argv bodyIndex = (argv, bodyIndex)))
    ∧ (∀ (lv : Option ThinkLevel) (kind : AgentKind) (argv : List String)
        (bodyIndex : Nat), lv = none ∨ lv = some ThinkLevel.off →
        applyThinkLevel lv kind argv bodyIndex = (argv, bodyIndex)) := by
  constructor
  · intro lvl hlvl
    refine ⟨?_, ?_, ?_⟩
    · intro argv bodyIndex hflag
      simp [applyThinkLevel, hlvl, hflag]
    · intro kind hk argv bodyIndex b hb hbne
      have hset := appendThinkingCue_eq b lvl hlvl
      simp [applyThinkLevel, hlvl, hk, hb, hbne, hset]
    · intro kind hk argv bodyIndex hb
      simp [applyThinkLevel, hlvl, hk, hb]
  · intro lv kind argv bodyIndex hlv
    rcases hlv with rfl | rfl
    · rfl
    · simp [applyThinkLevel]

/-- C7 (witness): `applyThinkLevel_behaviour` at level `high` for a
claude invocation with body `hi` and for a pi invocation. -/
theorem applyThinkLevel_behaviour_witness :
    (applyThinkLevel (some ThinkLevel.high) AgentKind.claude ["claude", "hi"] 1).1 =
      ["claude", "hi ultrathink"] ∧
    applyThinkLevel (some ThinkLevel.high) AgentKind.pi ["pi", "hi"] 1 =
      (["pi", "--thinking", "high", "hi"], 3) := by
  constructor
  · have h := (applyThinkLevel_behaviour.1 ThinkLevel.high (by decide)).2.1
      AgentKind.claude (by decide) ["claude", "hi"] 1 "hi" (by decide) (by decide)
    rw [h]
    rfl
  · have h := (applyThinkLevel_behaviour.1 ThinkLevel.high (by decide)).1
      ["pi", "hi"] 1 (by decide)
    rw [h]
    rfl

/-! ## The reply engine's data model and environment -/

/-- `reply.agent`. -/
structure AgentCfg where
  kind : AgentKind
  format : Option String
  identityPrefix : Option String
deriving DecidableEq

/-- The fields of `reply` that `runCommandReply` reads. -/
structure ReplyCfg where
  command : Option (List String)
  template : Option String
  session : Option SessionCfg
  mediaUrl : Option String
  mediaMaxMb : Option ℚ
  cwd : Option String
  agent : Option AgentCfg
deriving DecidableEq

/-- The parameter record of `runCommandReply` (minus the injected
runner/queue, which live in `ReplyEnv`). -/
structure CommandReplyParams where
  reply : ReplyCfg
  templatingCtx : TemplateContext
  sendSystemOnce : Bool
  isNewSession : Bool
  isFirstTurnInSession : Bool
  systemSent : Bool
  timeoutMs : Nat
  timeoutSeconds : Nat
  thinkLevel : Option ThinkLevel
  verboseLevel : Option VerboseLevel
deriving DecidableEq

/-- `ReplyPayload = {text?, mediaUrl?, mediaUrls?}`. -/
structure ReplyPayload where
  text : Option String
  mediaUrl : Option String
  mediaUrls : Option (List String)
deriving DecidableEq

/-- `CommandReplyMeta`. -/
structure CommandReplyMeta where
  durationMs : Nat
  queuedMs : Option Nat
  queuedAhead : Option Nat
  exitCode : Option Int
  signal : Option String
  killed : Option Bool
  agentMeta : Option AgentMeta
deriving DecidableEq

/-- `CommandReplyResult = {payloads?, meta}`. -/
structure CommandReplyResult where
  payloads : Option (List ReplyPayload)
  meta : CommandReplyMeta
deriving DecidableEq

/-- The value resolved by the enqueued run
(`{stdout, stderr, code, signal, killed}`). -/
structure RunOutcome where
  stdout : String
  stderr : String
  code : Option Int
  signal : Option String
  killed : Option Bool
deriving DecidableEq

/-- The error thrown by the enqueued run (its fields as read by the
`catch` block; `message` is `String(err)` / `err.message`). -/
structure RunError where
  killed : Option Bool
  signal : Option String
  stdout : Option String
  stderr : Option String
  message : String
deriving DecidableEq

/-- Outcome of `await enqueue(run, ...)`: either a resolved value or the
thrown error. -/
def RunResult := Except RunError RunOutcome

/-- What the reply engine asks the process layer to run: the pi RPC
transport (argv without the prompt, `--mode rpc`, prompt on the channel)
or a plain spawn of the final argv. -/
structure RunRequest where
  rpc : Bool
  argv : List String
  prompt : Option String
  cwd : Option String
  timeoutMs : Nat
deriving DecidableEq

/-- `{text, mediaUrls?}` returned by `splitMediaFromOutput`. -/
structure SplitMediaResult where
  text : String
  mediaUrls : Option (List String)
deriving DecidableEq

/-- The context handed to `AgentSpec.buildArgs`. -/
structure BuildArgsCtx where
  argv : List String
  bodyIndex : Nat
  isNewSession : Bool
  sessionId : String
  sendSystemOnce : Bool
  systemSent : Bool
  identityPrefix : Option String
  format : Option String

/-- The effectful collaborators of `runCommandReply`, abstracted: the
matched agent's callbacks, the media splitter (`media/parse` is not among
the sources), `fs.stat` (`statSize p = none` models a failing stat),
`path.resolve`, the command queue + process runner (`runResult`), the
wall clock (`elapsedMs`) and what the queue reported to `onWait`. -/
structure ReplyEnv where
  parseOutput : String → AgentParseResult
  isInvocation : List String → Bool
  buildArgs : BuildArgsCtx → List String
  splitMedia : String → SplitMediaResult
  statSize : String → Option Nat
  resolvePath : String → String
  runResult : RunRequest → RunResult
  elapsedMs : Nat
  queuedMs : Option Nat
  queuedAhead : Option Nat

/-! ## Media filtering (`runCommandReply`, lines 643–666) -/

/-- The regex test `/^https?:\/\//i`. -/
def isHttpUrl (u : String) : Bool :=
  strStartsWith (strLower u) "http://" || strStartsWith (strLower u) "https://"

/-- `path.isAbsolute(url) ? url : path.resolve(url)`. -/
def resolveAbs (env : ReplyEnv) (u : String) : String :=
  if strStartsWith u "/" then u else env.resolvePath u

/-- The body of the media-size filter loop: keep http(s) URLs
unconditionally; stat local paths and keep them when the size is within
the cap or the stat fails. -/
def mediaStep (env : ReplyEnv) (maxBytes : ℚ) (acc : List String)
    (url : String) : List String :=
  if isHttpUrl url then acc ++ [url]
  else
    match env.statSize (resolveAbs env url) with
    | some size => if (size : ℚ) ≤ maxBytes then acc ++ [url] else acc
    | none => acc ++ [url]

/-- The media-size filter of `runCommandReply`. -/
def filterMediaUrls (env : ReplyEnv) (maxBytes : ℚ) (urls : List String) :
    List String :=
  urls.foldl (mediaStep env maxBytes) []

/-- The per-url keep decision of the filter loop. -/
def mediaKeep (env : ReplyEnv) (maxBytes : ℚ) (url : String) : Bool :=
  isHttpUrl url ||
    (match env.statSize (resolveAbs env url) with
     | some size => decide ((size : ℚ) ≤ maxBytes)
     | none => true)

theorem mediaStep_eq (env : ReplyEnv) (maxBytes : ℚ) (acc : List String)
    (url : String) :
    mediaStep env maxBytes acc url =
      if mediaKeep env maxBytes url then acc ++ [url] else acc := by
  unfold mediaStep mediaKeep
  by_cases hh : isHttpUrl url = true
  · simp [hh]
  · have hh2 : isHttpUrl url = false := by
      cases h2 : isHttpUrl url
      · rfl
      · exact absurd h2 hh
    simp only [hh2, Bool.false_eq_true, if_false, Bool.false_or]
    cases hstat : env.statSize (resolveAbs env url) with
    | none => simp
    | some size =>
      by_cases hsz : (size : ℚ) ≤ maxBytes <;> simp [hsz]

theorem filterMediaUrls_eq_filter (env : ReplyEnv) (maxBytes : ℚ)
    (urls : List String) :
    filterMediaUrls env maxBytes urls = urls.filter (mediaKeep env maxBytes) := by
  have hgen : ∀ (l acc : List String),
      l.foldl (mediaStep env maxBytes) acc =
        acc ++ l.filter (mediaKeep env maxBytes) := by
    intro l
    induction l with
    | nil => intro acc; simp
    | cons u rest ih =>
      intro acc
      rw [List.foldl_cons, mediaStep_eq, List.filter_cons]
      by_cases hk : mediaKeep env maxBytes u = true
      · rw [if_pos hk, ih]
        simp [hk]
      · have hk2 : mediaKeep env maxBytes u = false := by
          cases h2 : mediaKeep env maxBytes u
          · rfl
          · exact absurd h2 hk
        rw [if_neg hk, ih]
        simp [hk2]
  unfold filterMediaUrls
  rw [hgen]
  simp

/-! ## Reply items and payloads (`runCommandReply`, success path) -/

/-- One reply item (`{text, media?}`). -/
structure ReplyItem where
  text : String
  media : Option (List String)
deriving DecidableEq

/-- Build a reply item from a split result
(`media: mediaFound?.length ? mediaFound : undefined`). -/
def mkItem (r : SplitMediaResult) : ReplyItem :=
  { text := r.text
    media :=
      match r.mediaUrls with
      | some l => if l ≠ [] then some l else none
      | none => none }

/-- The fallback notice text
(`(command produced no output${meta ? "; " + meta : ""})`). -/
def noticeText (parsed : Option AgentParseResult) : String :=
  "(command produced no output" ++
    (match (parsed.bind (fun p => p.meta)).bind (fun m => m.extraSummary) with
     | some s => if s ≠ "" then "; " ++ s else ""
     | none => "") ++ ")"

/-- The reply-item construction of the success path: one item per parsed
assistant text, tool-result items under `verbose=on`, the raw-stdout
fallback guarded by `!parserProvided`, and the no-output notice.
`parsed.isSome` is the source's `parserProvided` (`parseOutput` is total,
so it holds exactly when the trimmed stdout was non-empty). -/
def buildReplyItems (env : ReplyEnv) (params : CommandReplyParams)
    (parsed : Option AgentParseResult) (trimmed : String) : List ReplyItem :=
  let parsedTexts :=
    (((parsed.map (fun p => p.texts)).getD []).map strTrim).filter
      (fun t => t ≠ "")
  let parsedTools :=
    ((((parsed.map (fun p => p.toolResults)).getD none).getD []).map
      strTrim).filter (fun t => t ≠ "")
  let items0 := parsedTexts.map (fun t => mkItem (env.splitMedia t))
  let items1 :=
    if params.verboseLevel = some VerboseLevel.on then
      items0 ++ parsedTools.map (fun tr => mkItem (env.splitMedia ("🛠️ " ++ tr)))
    else items0
  let items2 :=
    if items1 = [] ∧ trimmed ≠ "" ∧ parsed.isNone then
      (let r := env.splitMedia trimmed
       if r.text ≠ "" ∨ (r.mediaUrls.getD []) ≠ [] then [mkItem r] else [])
    else items1
  if items2 = [] then [{ text := noticeText parsed, media := none }] else items2

/-- The media list an item starts from:
`item.media ?? mediaFromCommand ?? (reply.mediaUrl ? [reply.mediaUrl] : undefined)`.
(`mediaFromCommand` in the source is declared but never assigned and is
elided.) -/
def payloadMediaSource (reply : ReplyCfg) (item : ReplyItem) :
    Option (List String) :=
  match item.media with
  | some l => some l
  | none =>
    match reply.mediaUrl with
    | some m => if m ≠ "" then some [m] else none
    | none => none

/-- The item's media list after the `mediaMaxMb` filter
(`if (mediaUrls?.length && reply.mediaMaxMb) { … }`). -/
def payloadMediaFiltered (env : ReplyEnv) (reply : ReplyCfg)
    (item : ReplyItem) : Option (List String) :=
  match payloadMediaSource reply item, reply.mediaMaxMb with
  | some urls, some mb =>
    if urls ≠ [] ∧ mb ≠ 0 then
      some (filterMediaUrls env (mb * 1024 * 1024) urls)
    else some urls
  | mu, _ => mu

/-- The per-item payload construction: media list from the item, else
`reply.mediaUrl`; size-filtered when `mediaMaxMb` is truthy and the list
non-empty; a payload only when there is text or media. -/
def buildPayload (env : ReplyEnv) (reply : ReplyCfg) (item : ReplyItem) :
    Option ReplyPayload :=
  if item.text ≠ "" ∨ ((payloadMediaFiltered env reply item).getD []) ≠ [] then
    some
      { text := if item.text ≠ "" then some item.text else none
        mediaUrl := ((payloadMediaFiltered env reply item).getD []).head?
        mediaUrls := payloadMediaFiltered env reply item }
  else none

/-- `Output: <first 500 chars>` suffix of the non-zero-exit error text. -/
def exitErrorText (code : Option Int) (signal : Option String)
    (trimmed : String) : String :=
  let partOut :=
    if trimmed ≠ "" then
      "\n\nOutput: " ++ strTake trimmed 500 ++
        (if 500 < trimmed.data.length then "..." else "")
    else ""
  "⚠️ Command exited with code " ++
    (match code with
     | some c => toString c
     | none => "unknown") ++
    (match signal with
     | some s => if s ≠ "" then " (" ++ s ++ ")" else ""
     | none => "") ++ partOut

/-- The killed-without-signal error text. -/
def killedText (code : Option Int) : String :=
  "⚠️ Command was killed before completion (exit code " ++
    (match code with
     | some c => toString c
     | none => "unknown") ++ ")"

/-- The success-path handler of `runCommandReply` (everything after the
enqueued run resolves): trim stdout, parse when non-empty, build the
reply items, then return an error payload on non-zero exit or a
kill-without-signal, else the item payloads. -/
def commandSuccessReply (env : ReplyEnv) (params : CommandReplyParams)
    (res : RunOutcome) : CommandReplyResult :=
  let trimmed := strTrim res.stdout
  let parsed : Option AgentParseResult :=
    if trimmed ≠ "" then some (env.parseOutput trimmed) else none
  let items := buildReplyItems env params parsed trimmed
  let meta : CommandReplyMeta :=
    { durationMs := env.elapsedMs
      queuedMs := env.queuedMs
      queuedAhead := env.queuedAhead
      exitCode := res.code
      signal := res.signal
      killed := res.killed
      agentMeta := parsed.bind (fun p => p.meta) }
  if res.code.getD 0 ≠ 0 then
    { payloads := some
        [{ text := some (exitErrorText res.code res.signal trimmed)
           mediaUrl := none, mediaUrls := none }]
      meta := meta }
  else if res.killed.getD false = true ∧ res.signal.getD "" = "" then
    { payloads := some
        [{ text := some (killedText res.code)
           mediaUrl := none, mediaUrls := none }]
      meta := meta }
  else
    { payloads := some (items.filterMap (buildPayload env params.reply))
      meta := meta }

/-- The meta record built by the `catch` handler. -/
def catchMeta (env : ReplyEnv) (err : RunError) : CommandReplyMeta :=
  { durationMs := env.elapsedMs
    queuedMs := env.queuedMs
    queuedAhead := env.queuedAhead
    exitCode := none
    signal := err.signal
    killed := err.killed
    agentMeta := none }

/-- `(cwd: …)` fragment of the timeout message (`reply.cwd` truthy). -/
def timeoutCwdPart (reply : ReplyCfg) : String :=
  match reply.cwd with
  | some c => if c ≠ "" then " (cwd: " ++ c ++ ")" else ""
  | none => ""

/-- The base timeout message
(`Command timed out after ${timeoutSeconds}s…`). -/
def timeoutBaseMsg (params : CommandReplyParams) : String :=
  "Command timed out after " ++
    (toString params.timeoutSeconds ++ "s" ++ timeoutCwdPart params.reply ++
      ". Try a shorter prompt or split the request.")

/-- The ≤800-char snippet of the partial stdout. -/
def timeoutSnip (part : String) : String :=
  if 800 < part.data.length then strTake part 800 ++ "..." else part

/-- The full timeout fallback text, with the partial-output section when
the trimmed partial stdout is non-empty. -/
def timeoutText (params : CommandReplyParams) (err : RunError) : String :=
  if strTrim (err.stdout.getD "") ≠ "" then
    timeoutBaseMsg params ++
      ("\n\nPartial output before timeout:\n" ++
        timeoutSnip (strTrim (err.stdout.getD "")))
  else timeoutBaseMsg params

/-- The `catch` handler of `runCommandReply`: a timeout
(`killed === true || signal === "SIGKILL"`) produces the timeout
fallback with a ≤800-char prefix of any partial stdout; any other error
produces the generic failure payload. -/
def commandCatchReply (env : ReplyEnv) (params : CommandReplyParams)
    (err : RunError) : CommandReplyResult :=
  if err.killed = some true ∨ err.signal = some "SIGKILL" then
    { payloads := some
        [{ text := some (timeoutText params err)
           mediaUrl := none, mediaUrls := none }]
      meta := catchMeta env err }
  else
    { payloads := some
        [{ text := some ("⚠️ Command failed: " ++ err.message)
           mediaUrl := none, mediaUrls := none }]
      meta := catchMeta env err }

/-! ## The run request (`runCommandReply`, argv pipeline and `run`) -/

/-- Index of the first occurrence of a string (JS `indexOf`, `none` for
`-1`). -/
def idxOfStrAux : List String → String → Nat → Option Nat
  | [], _, _ => none
  | x :: xs, a, i => if x = a then some i else idxOfStrAux xs a (i + 1)

/-- The rpc argv for the pi agent: remove the prompt (last argument),
then force `--mode rpc` (replacing an existing valued `--mode`, or
splicing before the last element when no `--mode` is present). -/
def buildPiRpcArgv (finalArgv : List String) : List String :=
  let promptIndex := finalArgv.length - 1
  let copy := finalArgv.eraseIdx promptIndex
  match idxOfStrAux copy "--mode" 0 with
  | some i =>
    if (copy[i + 1]?.getD "") ≠ "" then
      copy.take i ++ ["--mode", "rpc"] ++ copy.drop (i + 2)
    else copy
  | none =>
    copy.take (copy.length - 1) ++ ["--mode", "rpc"] ++ copy.drop (copy.length - 1)

/-- The argv pipeline of `runCommandReply` and the request handed to the
queue's `run`: template the command, insert the template prefix after
`argv[0]`, inject session flags, apply the think level, run
`agent.buildArgs` when the agent matches, then either the pi RPC
transport or a plain spawn. -/
def commandRunRequest (env : ReplyEnv) (params : CommandReplyParams) :
    RunRequest :=
  let ctx := params.templatingCtx
  let reply := params.reply
  let agentCfg := reply.agent.getD
    { kind := AgentKind.claude, format := none, identityPrefix := none }
  let agentKind := agentCfg.kind
  let argv0 := (reply.command.getD []).map (fun part => applyTemplate part ctx)
  let tpl :=
    match reply.template with
    | some t =>
      if ¬ params.sendSystemOnce ∨ params.isFirstTurnInSession ∨
          ¬ params.systemSent then
        applyTemplate t ctx
      else ""
    | none => ""
  let argv1 :=
    if tpl ≠ "" then
      match argv0 with
      | a :: rest => a :: tpl :: rest
      | [] => argv0
    else argv0
  let bodyIndex0 := argv1.length - 1
  let step2 :=
    match reply.session with
    | some s => injectSessionArgs s agentKind params.isNewSession ctx argv1 bodyIndex0
    | none => (argv1, bodyIndex0)
  let step3 := applyThinkLevel params.thinkLevel agentKind step2.1 step2.2
  let finalArgv :=
    if env.isInvocation step3.1 then
      env.buildArgs
        { argv := step3.1
          bodyIndex := step3.2
          isNewSession := params.isNewSession
          sessionId := ctx.SessionId
          sendSystemOnce := params.sendSystemOnce
          systemSent := params.systemSent
          identityPrefix := agentCfg.identityPrefix
          format := agentCfg.format }
    else step3.1
  if agentKind = AgentKind.pi then
    { rpc := true
      argv := buildPiRpcArgv finalArgv
      prompt := some ((finalArgv[finalArgv.length - 1]?).getD "")
      cwd := reply.cwd
      timeoutMs := params.timeoutMs }
  else
    { rpc := false
      argv := finalArgv
      prompt := none
      cwd := reply.cwd
      timeoutMs := params.timeoutMs }

/-- `runCommandReply`: throw when `reply.command` is missing or empty
(the only throw that escapes), else hand the run request to the queue
and process the outcome; the `catch` turns every thrown run error into a
payload-carrying result. -/
def runCommandReply (env : ReplyEnv) (params : CommandReplyParams) :
    Except String CommandReplyResult :=
  match params.reply.command with
  | none => Except.error "reply.command is required for mode=command"
  | some [] => Except.error "reply.command is required for mode=command"
  | some (_ :: _) =>
    match env.runResult (commandRunRequest env params) with
    | Except.ok res => Except.ok (commandSuccessReply env params res)
    | Except.error err => Except.ok (commandCatchReply env params err)

/-! ## C2 — totality and failure-path payloads -/

/-- A trivial environment: no agent matches, runs resolve with empty
stdout and exit 0. -/
def envTrivial : ReplyEnv :=
  { parseOutput := fun _ => { texts := [], toolResults := none, meta := none }
    isInvocation := fun _ => false
    buildArgs := fun c => c.argv
    splitMedia := fun s => { text := s, mediaUrls := none }
    statSize := fun _ => none
    resolvePath := fun p => p
    runResult := fun _ =>
      Except.ok { stdout := "", stderr := "", code := some 0, signal := none
                  killed := some false }
    elapsedMs := 0
    queuedMs := none
    queuedAhead := none }

/-- A parameter record whose `reply.command` is absent. -/
def paramsNoCommand : CommandReplyParams :=
  { reply :=
      { command := none, template := none, session := none, mediaUrl := none
        mediaMaxMb := none, cwd := none, agent := none }
    templatingCtx := sampleCtx
    sendSystemOnce := false
    isNewSession := true
    isFirstTurnInSession := true
    systemSent := false
    timeoutMs := 1000
    timeoutSeconds := 1
    thinkLevel := none
    verboseLevel := none }

/-- C2 (counterexample): `runCommandReply` does not return normally on
every input — with `reply.command` missing it throws
`reply.command is required for mode=command` before reaching the
try/catch. -/
theorem runCommandReply_throws_without_command :
    runCommandReply envTrivial paramsNoCommand =
      Except.error "reply.command is required for mode=command" := rfl

/-- C2 (amended): whenever `reply.command` is present and non-empty,
`runCommandReply` returns normally, and on every failure path — a thrown
run error (child-process error, timeout, kill), or a resolved run with a
non-zero exit code or killed without signal — the returned result carries
at least one payload.  (With `reply.command` missing or empty it throws.) -/
theorem runCommandReply_total_with_failure_payloads
    (env : ReplyEnv) (params : CommandReplyParams) (cmd : List String)
    (hcmd : params.reply.command = some cmd) (hne : cmd ≠ []) :
    ∃ r, runCommandReply env params = Except.ok r ∧
      ((match env.runResult (commandRunRequest env params) with
        | Except.error _ => True
        | Except.ok res =>
          res.code.getD 0 ≠ 0 ∨
            (res.killed.getD false = true ∧ res.signal.getD "" = "")) →
        r.payloads.getD [] ≠ []) := by
  obtain ⟨c, cs, rfl⟩ : ∃ c cs, cmd = c :: cs := by
    cases cmd with
    | nil => exact absurd rfl hne
    | cons c cs => exact ⟨c, cs, rfl⟩
  cases hrun : env.runResult (commandRunRequest env params) with
  | error err =>
    refine ⟨commandCatchReply env params err, ?_, ?_⟩
    · unfold runCommandReply
      rw [hcmd, hrun]
    · intro _
      unfold commandCatchReply
      split_ifs <;> simp
  | ok res =>
    refine ⟨commandSuccessReply env params res, ?_, ?_⟩
    · unfold runCommandReply
      rw [hcmd, hrun]
    · intro hfail
      by_cases hcode : res.code.getD 0 ≠ 0
      · simp [commandSuccessReply, hcode]
      · rcases hfail with h | ⟨hk, hs⟩
        · exact absurd h hcode
        · simp [commandSuccessReply, hcode, hk, hs]

/-- C2 (witness): `runCommandReply_total_with_failure_payloads` for a
concrete command whose run times out. -/
def errTimeout : RunError :=
  { killed := some true, signal := some "SIGKILL"
    stdout := some "partial answer", stderr := none
    message := "timeout" }

def envTimeout : ReplyEnv :=
  { envTrivial with runResult := fun _ => Except.error errTimeout }

/-- C2's concrete parameter record (a one-element command). -/
def paramsEcho : CommandReplyParams :=
  { paramsNoCommand with
    reply := { paramsNoCommand.reply with command := some ["echo", "hi"] } }

theorem runCommandReply_total_with_failure_payloads_witness :
    paramsEcho.reply.command = some ["echo", "hi"] ∧
    (["echo", "hi"] : List String) ≠ [] ∧
    ∃ r, runCommandReply envTimeout paramsEcho = Except.ok r ∧
      ((match envTimeout.runResult (commandRunRequest envTimeout paramsEcho) with
        | Except.error _ => True
        | Except.ok res =>
          res.code.getD 0 ≠ 0 ∨
            (res.killed.getD false = true ∧ res.signal.getD "" = "")) →
        r.payloads.getD [] ≠ []) := by
  refine ⟨rfl, by decide, ?_⟩
  exact runCommandReply_total_with_failure_payloads envTimeout paramsEcho
    ["echo", "hi"] rfl (by decide)

/-! ## C3 — the timeout fallback -/

/-- C3: when the enqueued run fails with a timeout (the error is marked
killed or signalled SIGKILL), `runCommandReply` returns — without
raising — exactly one fallback payload whose text contains
`timed out`, the configured timeout in seconds, and, when partial stdout
exists, the ≤800-character prefix of that (trimmed) partial stdout. -/
theorem runCommandReply_timeout_fallback
    (env : ReplyEnv) (params : CommandReplyParams) (cmd : List String)
    (err : RunError)
    (hcmd : params.reply.command = some cmd) (hne : cmd ≠ [])
    (hrun : env.runResult (commandRunRequest env params) = Except.error err)
    (hkill : err.killed = some true ∨ err.signal = some "SIGKILL") :
    ∃ t m, runCommandReply env params =
        Except.ok
          { payloads := some [{ text := some t, mediaUrl := none, mediaUrls := none }]
            meta := m } ∧
      containsStr t "timed out" ∧
      containsStr t (toString params.timeoutSeconds ++ "s") ∧
      (strTrim (err.stdout.getD "") ≠ "" →
        containsStr t (strTake (strTrim (err.stdout.getD "")) 800)) := by
  obtain ⟨c, cs, rfl⟩ : ∃ c cs, cmd = c :: cs := by
    cases cmd with
    | nil => exact absurd rfl hne
    | cons c cs => exact ⟨c, cs, rfl⟩
  have hstep : runCommandReply env params =
      Except.ok (commandCatchReply env params err) := by
    unfold runCommandReply
    rw [hcmd, hrun]
  have hbase1 : containsStr (timeoutBaseMsg params) "timed out" := by
    unfold timeoutBaseMsg
    exact containsStr_append_left _ (by decide)
  have hbase2 : containsStr (timeoutBaseMsg params)
      (toString params.timeoutSeconds ++ "s") := by
    unfold timeoutBaseMsg
    exact containsStr_append_right _
      (containsStr_append_left _
        (containsStr_append_left _ (containsStr_self _)))
  refine ⟨timeoutText params err, catchMeta env err, ?_, ?_, ?_, ?_⟩
  · rw [hstep]
    unfold commandCatchReply
    rw [if_pos hkill]
  · unfold timeoutText
    by_cases hp : strTrim (err.stdout.getD "") ≠ ""
    · rw [if_pos hp]
      exact containsStr_append_left _ hbase1
    · rw [if_neg hp]
      exact hbase1
  · unfold timeoutText
    by_cases hp : strTrim (err.stdout.getD "") ≠ ""
    · rw [if_pos hp]
      exact containsStr_append_left _ hbase2
    · rw [if_neg hp]
      exact hbase2
  · intro hpart
    unfold timeoutText
    rw [if_pos hpart]
    unfold timeoutSnip
    by_cases hlen : 800 < (strTrim (err.stdout.getD "")).data.length
    · rw [if_pos hlen]
      exact containsStr_append_right _
        (containsStr_append_right _
          (containsStr_append_left _ (containsStr_self _)))
    · rw [if_neg hlen]
      have htake : strTake (strTrim (err.stdout.getD "")) 800 =
          strTrim (err.stdout.getD "") := by
        unfold strTake
        rw [List.take_of_length_le (by omega), strMkData]
      rw [htake]
      exact containsStr_append_right _
        (containsStr_append_right _ (containsStr_self _))

/-- C3 (witness): `runCommandReply_timeout_fallback` at a concrete
timed-out run with partial stdout `partial answer`. -/
theorem runCommandReply_timeout_fallback_witness :
    ∃ t m, runCommandReply envTimeout paramsEcho =
        Except.ok
          { payloads := some [{ text := some t, mediaUrl := none, mediaUrls := none }]
            meta := m } ∧
      containsStr t "timed out" ∧
      containsStr t (toString paramsEcho.timeoutSeconds ++ "s") ∧
      (strTrim (errTimeout.stdout.getD "") ≠ "" →
        containsStr t (strTake (strTrim (errTimeout.stdout.getD "")) 800)) :=
  runCommandReply_timeout_fallback envTimeout paramsEcho ["echo", "hi"] errTimeout
    rfl (by decide) rfl (Or.inl rfl)

/-! ## C1 — the raw-stdout fallback is unreachable -/

/-- C1: evaluation of the code at the failing input.  With the pi agent,
a successful run (exit 0) whose stdout `hello world` contains no JSON
line, and verbose off, `runCommandReply` returns the single
`(command produced no output)` payload — not, as the spec and the
source's own comment say, the raw trimmed stdout.  The guard
`!parserProvided` of the raw-stdout fallback cannot hold together with a
non-empty trimmed stdout, because `parsed` is set exactly when the
trimmed stdout is non-empty and `parseOutput` always returns a result
object; the branch is dead and the no-output notice is produced instead.
The theorem holds for every JSON decoder and media splitter, so the
behaviour is independent of the abstracted collaborators. -/
theorem runCommandReply_unparsed_stdout_yields_notice :
    ∀ (decode : String → Option PiEvent) (split : String → SplitMediaResult)
      (stat : String → Option Nat) (resolve : String → String)
      (inv : List String → Bool) (bargs : BuildArgsCtx → List String),
      runCommandReply
        { parseOutput := piParseOutputVia decode
          isInvocation := inv
          buildArgs := bargs
          splitMedia := split
          statSize := stat
          resolvePath := resolve
          runResult := fun _ =>
            Except.ok
              { stdout := "hello world", stderr := "", code := some 0
                signal := none, killed := some false }
          elapsedMs := 0
          queuedMs := none
          queuedAhead := none }
        paramsEcho =
      Except.ok
        { payloads := some
            [{ text := some "(command produced no output)"
               mediaUrl := none, mediaUrls := none }]
          meta :=
            { durationMs := 0, queuedMs := none, queuedAhead := none
              exitCode := some 0, signal := none, killed := some false
              agentMeta := none } } := by
  intro decode split stat resolve inv bargs
  rfl

/-! ## C5 / C10 — media cap and stat-failure behaviour -/

theorem filterMediaUrls_size_bound (env : ReplyEnv) (maxB : ℚ)
    (urls : List String) (u : String) (hu : u ∈ filterMediaUrls env maxB urls)
    (hhttp : isHttpUrl u = false) (n : Nat)
    (hstat : env.statSize (resolveAbs env u) = some n) : (n : ℚ) ≤ maxB := by
  rw [filterMediaUrls_eq_filter] at hu
  have hk := (List.mem_filter.mp hu).2
  unfold mediaKeep at hk
  rw [hhttp, hstat] at hk
  simpa using hk

theorem payloadMediaFiltered_shape (env : ReplyEnv) (reply : ReplyCfg)
    (item : ReplyItem) (mb : ℚ) (hmb : reply.mediaMaxMb = some mb)
    (hmb0 : mb ≠ 0) :
    payloadMediaFiltered env reply item = none ∨
    payloadMediaFiltered env reply item = some [] ∨
    ∃ urls, payloadMediaFiltered env reply item =
      some (filterMediaUrls env (mb * 1024 * 1024) urls) := by
  unfold payloadMediaFiltered
  rw [hmb]
  cases payloadMediaSource reply item with
  | none => exact Or.inl rfl
  | some urls =>
    by_cases hne : urls ≠ []
    · exact Or.inr (Or.inr ⟨urls, by simp [hne, hmb0]⟩)
    · have hnil : urls = [] := not_not.mp hne
      subst hnil
      exact Or.inr (Or.inl (by simp))

theorem buildPayload_mediaUrls (env : ReplyEnv) (reply : ReplyCfg)
    (item : ReplyItem) (p : ReplyPayload)
    (hp : buildPayload env reply item = some p) :
    p.mediaUrls = payloadMediaFiltered env reply item := by
  unfold buildPayload at hp
  by_cases hc : item.text ≠ "" ∨ ((payloadMediaFiltered env reply item).getD []) ≠ []
  · rw [if_pos hc] at hp
    cases hp
    rfl
  · rw [if_neg hc] at hp
    cases hp

/-- Every payload of a `runCommandReply` result either carries no media
list or was produced by `buildPayload`. -/
theorem runCommandReply_payload_media (env : ReplyEnv)
    (params : CommandReplyParams) (r : CommandReplyResult)
    (hres : runCommandReply env params = Except.ok r) :
    ∀ p ∈ r.payloads.getD [], p.mediaUrls = none ∨
      ∃ item, buildPayload env params.reply item = some p := by
  unfold runCommandReply at hres
  cases hcc : params.reply.command with
  | none => rw [hcc] at hres; simp at hres
  | some cmd =>
    cases cmd with
    | nil => rw [hcc] at hres; simp at hres
    | cons c cs =>
      rw [hcc] at hres
      cases hrun : env.runResult (commandRunRequest env params) with
      | error err =>
        rw [hrun] at hres
        simp only at hres
        have hr : r = commandCatchReply env params err :=
          (Except.ok.injEq _ _ ▸ hres).symm
        subst hr
        intro p hp
        unfold commandCatchReply at hp
        split_ifs at hp <;>
          simp only [Option.getD_some, List.mem_singleton] at hp <;>
          (subst hp; exact Or.inl rfl)
      | ok res =>
        rw [hrun] at hres
        simp only at hres
        have hr : r = commandSuccessReply env params res :=
          (Except.ok.injEq _ _ ▸ hres).symm
        subst hr
        intro p hp
        unfold commandSuccessReply at hp
        split_ifs at hp <;>
          simp only [Option.getD_some, List.mem_singleton] at hp
        · subst hp; exact Or.inl rfl
        · subst hp; exact Or.inl rfl
        · obtain ⟨item, _, hbuild⟩ := List.mem_filterMap.mp hp
          exact Or.inr ⟨item, hbuild⟩

/-- C5: with `reply.mediaMaxMb = M` set (truthy), every local
(non-http(s)) media path in any payload emitted by `runCommandReply`
whose size the environment can measure is at most `M * 1024 * 1024`
bytes; and the filtering step keeps every http(s) URL of its input list
unconditionally, emitting a sublist of the input (each kept URL
unchanged, in order). -/
theorem runCommandReply_media_cap :
    (∀ (env : ReplyEnv) (params : CommandReplyParams) (mb : ℚ)
      (r : CommandReplyResult),
      params.reply.mediaMaxMb = some mb → mb ≠ 0 →
      runCommandReply env params = Except.ok r →
      ∀ p ∈ r.payloads.getD [], ∀ u ∈ p.mediaUrls.getD [],
        isHttpUrl u = false → ∀ n, env.statSize (resolveAbs env u) = some n →
          (n : ℚ) ≤ mb * 1024 * 1024)
    ∧ (∀ (env : ReplyEnv) (maxB : ℚ) (urls : List String) (u : String),
        u ∈ urls → isHttpUrl u = true → u ∈ filterMediaUrls env maxB urls)
    ∧ (∀ (env : ReplyEnv) (maxB : ℚ) (urls : List String),
        (filterMediaUrls env maxB urls).Sublist urls) := by
  refine ⟨?_, ?_, ?_⟩
  · intro env params mb r hmb hmb0 hres p hp u hu hhttp n hstat
    rcases runCommandReply_payload_media env params r hres p hp with hnone | ⟨item, hbuild⟩
    · rw [hnone] at hu
      simp at hu
    · have hmedia := buildPayload_mediaUrls env params.reply item p hbuild
      rcases payloadMediaFiltered_shape env params.reply item mb hmb hmb0 with
        hshape | hshape | ⟨urls, hshape⟩
      · rw [hmedia, hshape] at hu; simp at hu
      · rw [hmedia, hshape] at hu; simp at hu
      · rw [hmedia, hshape] at hu
        simp only [Option.getD_some] at hu
        exact filterMediaUrls_size_bound env _ urls u hu hhttp n hstat
  · intro env maxB urls u hu hhttp
    rw [filterMediaUrls_eq_filter]
    refine List.mem_filter.mpr ⟨hu, ?_⟩
    simp [mediaKeep, hhttp]
  · intro env maxB urls
    rw [filterMediaUrls_eq_filter]
    exact List.filter_sublist urls

/-- `paramsEcho` with a 1 MB media cap. -/
def paramsMediaCap : CommandReplyParams :=
  { paramsEcho with reply := { paramsEcho.reply with mediaMaxMb := some 1 } }

/-- C5 (witness): `runCommandReply_media_cap` at a concrete run with the
cap set, and the http(s) pass-through at a concrete URL. -/
theorem runCommandReply_media_cap_witness :
    (paramsMediaCap.reply.mediaMaxMb = some 1 ∧ (1 : ℚ) ≠ 0 ∧
      ∃ r, runCommandReply envTrivial paramsMediaCap = Except.ok r ∧
        (∀ p ∈ r.payloads.getD [], ∀ u ∈ p.mediaUrls.getD [],
          isHttpUrl u = false →
          ∀ n, envTrivial.statSize (resolveAbs envTrivial u) = some n →
            (n : ℚ) ≤ 1 * 1024 * 1024)) ∧
    "http://x" ∈ filterMediaUrls envTrivial 1 ["http://x"] := by
  constructor
  · refine ⟨rfl, by decide, _, rfl, ?_⟩
    intro p hp u hu hhttp n hstat
    exact runCommandReply_media_cap.1 envTrivial paramsMediaCap 1 _ rfl
      (by decide) rfl p hp u hu hhttp n hstat
  · exact runCommandReply_media_cap.2.1 envTrivial 1 ["http://x"] "http://x"
      (List.mem_singleton.mpr rfl) (by decide)

/-- C10: during `mediaMaxMb` filtering, a local media path whose size
cannot be determined (the stat fails) is kept in the outgoing payload:
the payload exists and still lists the path; and a path is dropped by
the filter only when its size was successfully measured, exceeds the
cap, and the path is not an http(s) URL. -/
theorem mediaStat_failure_keeps_path :
    (∀ (env : ReplyEnv) (reply : ReplyCfg) (item : ReplyItem) (mb : ℚ)
        (urls : List String) (u : String),
      reply.mediaMaxMb = some mb → mb ≠ 0 → item.media = some urls →
      u ∈ urls → env.statSize (resolveAbs env u) = none →
      ∃ p, buildPayload env reply item = some p ∧ u ∈ p.mediaUrls.getD [])
    ∧ (∀ (env : ReplyEnv) (maxB : ℚ) (urls : List String) (u : String),
        u ∈ urls → u ∉ filterMediaUrls env maxB urls →
        isHttpUrl u = false ∧
          ∃ n, env.statSize (resolveAbs env u) = some n ∧ maxB < (n : ℚ)) := by
  constructor
  · intro env reply item mb urls u hmb hmb0 hmedia hu hstat
    have hsrc : payloadMediaSource reply item = some urls := by
      unfold payloadMediaSource
      rw [hmedia]
    have hne : urls ≠ [] := List.ne_nil_of_mem hu
    have hfil : payloadMediaFiltered env reply item =
        some (filterMediaUrls env (mb * 1024 * 1024) urls) := by
      unfold payloadMediaFiltered
      rw [hsrc, hmb]
      simp [hne, hmb0]
    have hkeep : mediaKeep env (mb * 1024 * 1024) u = true := by
      simp [mediaKeep, hstat]
    have humem : u ∈ filterMediaUrls env (mb * 1024 * 1024) urls := by
      rw [filterMediaUrls_eq_filter]
      exact List.mem_filter.mpr ⟨hu, hkeep⟩
    have hfne : filterMediaUrls env (mb * 1024 * 1024) urls ≠ [] :=
      List.ne_nil_of_mem humem
    have hcond : item.text ≠ "" ∨
        ((payloadMediaFiltered env reply item).getD []) ≠ [] := by
      right
      rw [hfil]
      simpa using hfne
    refine ⟨{ text := if item.text ≠ "" then some item.text else none
              mediaUrl := ((payloadMediaFiltered env reply item).getD []).head?
              mediaUrls := payloadMediaFiltered env reply item }, ?_, ?_⟩
    · unfold buildPayload
      rw [if_pos hcond]
    · show u ∈ (payloadMediaFiltered env reply item).getD []
      rw [hfil]
      simpa using humem
  · intro env maxB urls u hu hnot
    rw [filterMediaUrls_eq_filter] at hnot
    have hk : mediaKeep env maxB u = false := by
      cases hk2 : mediaKeep env maxB u
      · rfl
      · exact absurd (List.mem_filter.mpr ⟨hu, hk2⟩) hnot
    unfold mediaKeep at hk
    have hhttp : isHttpUrl u = false := by
      cases hh : isHttpUrl u
      · rfl
      · rw [hh] at hk
        simp at hk
    rw [hhttp] at hk
    simp only [Bool.false_or] at hk
    refine ⟨hhttp, ?_⟩
    cases hstat : env.statSize (resolveAbs env u) with
    | none =>
      rw [hstat] at hk
      simp at hk
    | some n =>
      rw [hstat] at hk
      simp only [decide_eq_false_iff_not, not_le] at hk
      exact ⟨n, rfl, hk⟩

/-- `paramsEcho.reply` with a 1 MB media cap. -/
def replyMediaCap : ReplyCfg :=
  { paramsEcho.reply with mediaMaxMb := some 1 }

/-- An item with one local media path and no text. -/
def itemLocalMedia : ReplyItem :=
  { text := "", media := some ["/tmp/pic.jpg"] }

/-- An environment whose stat always reports 3 bytes. -/
def envStatBig : ReplyEnv :=
  { envTrivial with statSize := fun _ => some 3 }

/-- C10 (witness): `mediaStat_failure_keeps_path` at concrete inputs: a
failing stat keeps `/tmp/pic.jpg`; with a 2-byte cap and a 3-byte file,
the dropped path was measured oversized. -/
theorem mediaStat_failure_keeps_path_witness :
    (∃ p, buildPayload envTrivial replyMediaCap itemLocalMedia = some p ∧
      "/tmp/pic.jpg" ∈ p.mediaUrls.getD []) ∧
    (isHttpUrl "/tmp/pic.jpg" = false ∧
      ∃ n, envStatBig.statSize (resolveAbs envStatBig "/tmp/pic.jpg") = some n ∧
        (2 : ℚ) < (n : ℚ)) := by
  constructor
  · exact mediaStat_failure_keeps_path.1 envTrivial replyMediaCap itemLocalMedia
      1 ["/tmp/pic.jpg"] "/tmp/pic.jpg" rfl (by decide) rfl
      (List.mem_singleton.mpr rfl) rfl
  · exact mediaStat_failure_keeps_path.2 envStatBig 2 ["/tmp/pic.jpg"]
      "/tmp/pic.jpg" (List.mem_singleton.mpr rfl) (by decide)
